import Mathlib

/-!
# Surface filling task panel

A shallow embedding of `src/Mod/Surface/Gui/SurfaceFilling.cpp`: the selection gate
`EdgeSelection::allow`, the panel `SurfaceFilling` (its list widget, its selection mode, the
edited feature with its `FillType` and `BoundaryList` properties) and the handlers that the
dialog forwards to.

Conventions of the embedding.

* A `const char*`, a `std::string`, a `QByteArray` and a `QString` are all read as the sequence
  of their characters (a Lean `String`); the conversions between them are the identity.
* A pointer to a document object is an address (`ObjPtr`); what the code reads through the
  pointer is looked up in the `Application`.
* The record `SurfaceFilling` carries the members of the panel and, next to them, the two
  pieces of host state its methods act on: the installed selection gate and the sequence of
  calls made into the host (`calls`, oldest first).
* A method that dereferences a null pointer has no result (`none`).
-/

namespace SurfaceGui

/-! ## Strings: `QString::arg` -/

/-- Numeric value of a decimal digit (`QChar::digitValue`, on the ASCII digits). -/
def digitValue (c : Char) : Option Nat :=
  if c.isDigit then some (c.toNat - 48) else none

/-- Reads a place marker at the head of the text: a percent sign, an optional `L`, then one
or two digits.  Returns the number of the marker and the count of characters it spans. -/
def readEscape : List Char → Option (Nat × Nat)
  | '%' :: 'L' :: d :: rest =>
    match digitValue d with
    | none => none
    | some v =>
      match rest with
      | [] => some (v, 3)
      | d2 :: _ =>
        match digitValue d2 with
        | some v2 => some (10 * v + v2, 4)
        | none => some (v, 3)
  | '%' :: d :: rest =>
    match digitValue d with
    | none => none
    | some v =>
      match rest with
      | [] => some (v, 2)
      | d2 :: _ =>
        match digitValue d2 with
        | some v2 => some (10 * v + v2, 3)
        | none => some (v, 2)
  | _ => none

/-- Minimum of a marker number and the lowest number found further on. -/
def optMin (k : Nat) : Option Nat → Nat
  | none => k
  | some m => min k m

/-- Lowest place-marker number occurring in the text (`findArgEscapes`); the first argument
counts the characters still to be skipped because they belong to the marker just read. -/
def findArgEscapes : Nat → List Char → Option Nat
  | _, [] => none
  | skip + 1, _ :: cs => findArgEscapes skip cs
  | 0, c :: cs =>
    match readEscape (c :: cs) with
    | some (k, len) => some (optMin k (findArgEscapes (len - 1) cs))
    | none => findArgEscapes 0 cs

/-- Replaces every place marker numbered `n` by `a` and copies everything else
(`replaceArgEscapes` with field width 0). -/
def replaceArgEscapes (n : Nat) (a : List Char) : Nat → List Char → List Char
  | _, [] => []
  | skip + 1, _ :: cs => replaceArgEscapes n a skip cs
  | 0, c :: cs =>
    match readEscape (c :: cs) with
    | some (k, len) =>
      if k = n then a ++ replaceArgEscapes n a (len - 1) cs
      else c :: replaceArgEscapes n a 0 cs
    | none => c :: replaceArgEscapes n a 0 cs

/-- The call `s.arg(a)` of `QString`: the lowest-numbered place marker of `s` is replaced by
`a`; a text without place marker is returned as it is. -/
def QString.arg (s a : String) : String :=
  match findArgEscapes 0 s.toList with
  | none => s
  | some n => String.mk (replaceArgEscapes n a.toList 0 s.toList)

/-- The text of a list entry, `QString::fromLatin1("%1.%2").arg(label).arg(sub)`
(lines 178-180 and 325-327). -/
def itemText (label sub : String) : String :=
  QString.arg (QString.arg "%1.%2" label) sub

/-! ## Host objects -/

/-- Address of a live `App::DocumentObject`; two pointers are equal when the addresses are. -/
abbrev ObjPtr := Nat

/-- What the panel reads through an `App::DocumentObject*`: `Label.getValue()`,
`getNameInDocument()`, `getDocument()->getName()` and
`isDerivedFrom(Part::Feature::getClassTypeId())`. -/
structure DocumentObject where
  Label : String
  nameInDocument : String
  docName : String
  isPartFeature : Bool
  deriving DecidableEq, Repr

/-- The application's object store: `deref` reads through a pointer, `getObject d n` is
`Gui::SelectionObject::getObject()` for a selection naming document `d` and object `n`
(a null pointer is `none`). -/
structure Application where
  deref : ObjPtr → DocumentObject
  getObject : String → String → Option ObjPtr

/-- Modelled from the spec: `App::PropertyLinkSubList`, the type of `BoundaryList`, whose
class is not part of this file.  It is a paired list, objects plus sub-element names. -/
structure PropertyLinkSubList where
  values : List ObjPtr
  subs : List String
  deriving DecidableEq, Repr

/-- Modelled from the spec: `getValues()` of the paired list, the objects. -/
def PropertyLinkSubList.getValues (p : PropertyLinkSubList) : List ObjPtr := p.values

/-- Modelled from the spec: `getSubValues()` of the paired list, the sub-element names. -/
def PropertyLinkSubList.getSubValues (p : PropertyLinkSubList) : List String := p.subs

/-- Modelled from the spec: `setValues(objects, subnames)` stores both lists. -/
def PropertyLinkSubList.setValues (_p : PropertyLinkSubList) (lValue : List ObjPtr)
    (lSubNames : List String) : PropertyLinkSubList :=
  ⟨lValue, lSubNames⟩

/-- Files one pair under its object: appended to the names of the object when the object
already has an entry, otherwise a new entry at the end. -/
def addSub (link : ObjPtr) (sub : String) :
    List (ObjPtr × List String) → List (ObjPtr × List String)
  | [] => [(link, [sub])]
  | (o, ss) :: rest =>
    if o = link then (o, ss ++ [sub]) :: rest else (o, ss) :: addSub link sub rest

/-- Modelled from the spec: `getSubListValues()` of the paired list, the pairs grouped by
object, objects in order of first occurrence. -/
def PropertyLinkSubList.getSubListValues (p : PropertyLinkSubList) :
    List (ObjPtr × List String) :=
  (p.values.zip p.subs).foldl (fun acc it => addSub it.1 it.2 acc) []

/-- What the panel asks the feature about its computation state: `mustExecute()`,
`isValid()`, `getStatusString()`. -/
structure FeatureStatus where
  mustExecute : Bool
  isValid : Bool
  statusString : String
  deriving DecidableEq, Repr

/-- The geometry kernel and property framework, which are outside this file:
`recompute` is the status after `recomputeFeature()` for the given fill type and boundary,
`touched` the status after a property of the feature was written. -/
structure Kernel where
  recompute : Int → PropertyLinkSubList → FeatureStatus → FeatureStatus
  touched : FeatureStatus → FeatureStatus

/-- The edited `Surface::SurfaceFeature`: its address and what the panel reads and writes
through the pointer. -/
structure SurfaceFeature where
  addr : ObjPtr
  Label : String
  docName : String
  FillType : Int
  BoundaryList : PropertyLinkSubList
  status : FeatureStatus
  deriving DecidableEq, Repr

/-- Calls into the host, as recorded in `SurfaceFilling.calls`. -/
inductive HostCall where
  | rmvSelectionGate
  | addSelectionGate (appendEdges : Bool)
  | warning (title text : String)
  | consoleError (format arg : String)
  | commitCommand
  | abortCommand
  | doCommand (cmd : String)
  | updateActive
  | setFillType (v : Int)
  | setBoundaryList (values : List ObjPtr) (subs : List String)
  | recomputeFeature
  | attachDocument (doc : String)
  deriving DecidableEq, Repr

/-! ## The panel -/

/-- The member `selectionMode`. -/
inductive SelectionMode where
  | None
  | Append
  | Remove
  deriving DecidableEq, Repr

/-- The three radio buttons of the panel. -/
inductive FillRadio where
  | fillType_stretch
  | fillType_coons
  | fillType_curved
  deriving DecidableEq, Repr

/-- An entry of `ui->listWidget`: its text and its `Qt::UserRole` data, the list of byte
arrays (document name, object name, sub-element name). -/
structure QListWidgetItem where
  text : String
  data : List String
  deriving DecidableEq, Repr

/-- The selection gate: its members `appendEdges` and `editedObject`.  The second carries
the address and the property values the pointer leads to when `allow` runs. -/
structure EdgeSelection where
  appendEdges : Bool
  editedObject : SurfaceFeature
  deriving DecidableEq, Repr

/-- Kinds of `Gui::SelectionChanges` messages. -/
inductive MsgType where
  | AddSelection
  | RmvSelection
  | SetSelection
  | ClrSelection
  | SetPreselect
  | RmvPreselect
  deriving DecidableEq, Repr

/-- A message `Gui::SelectionChanges` (the member `Type` is `msgType` here). -/
structure SelectionChanges where
  msgType : MsgType
  pDocName : String
  pObjectName : String
  pSubName : String
  deriving DecidableEq, Repr

/-- The panel together with the host state its methods act on: `selectionGate` is the gate
installed in `Gui::Selection()` (its `appendEdges` flag and the address in its
`editedObject`), `calls` the calls made into the host so far. -/
structure SurfaceFilling where
  editedObject : SurfaceFeature
  selectionMode : SelectionMode
  listWidget : List QListWidgetItem
  checkedRadio : Option FillRadio
  selectionGate : Option (Bool × ObjPtr)
  calls : List HostCall
  deriving DecidableEq, Repr

/-- Lines 49-72: `EdgeSelection::allow(doc, pObj, sSubName)`; a null `sSubName` is `none`. -/
def EdgeSelection.allow (g : EdgeSelection) (app : Application) (_doc : String)
    (pObj : ObjPtr) (sSubName : Option String) : Bool :=
  if pObj = g.editedObject.addr then false
  else if !(app.deref pObj).isPartFeature then false
  else
    match sSubName with
    | none => false
    | some element =>
      if element.toList = [] then false
      else if element.toList.take 4 ≠ "Edge".toList then false
      else
        let links := g.editedObject.BoundaryList.getSubListValues
        if links.any (fun it => it.1 == pObj && it.2.any (fun jt => jt == element)) then
          !g.appendEdges
        else g.appendEdges

/-- The call `FillType.setValue(v)` on the edited object. -/
def SurfaceFilling.setFillType (k : Kernel) (s : SurfaceFilling) (v : Int) : SurfaceFilling :=
  { s with
    editedObject := { s.editedObject with FillType := v, status := k.touched s.editedObject.status }
    calls := s.calls ++ [HostCall.setFillType v] }

/-- The call `BoundaryList.setValues(objects, element)` on the edited object. -/
def SurfaceFilling.setBoundaryList (k : Kernel) (s : SurfaceFilling) (objects : List ObjPtr)
    (element : List String) : SurfaceFilling :=
  { s with
    editedObject :=
      { s.editedObject with
        BoundaryList := s.editedObject.BoundaryList.setValues objects element
        status := k.touched s.editedObject.status }
    calls := s.calls ++ [HostCall.setBoundaryList objects element] }

/-- The call `editedObject->recomputeFeature()`: the kernel recomputes the status, the
properties stay as they are. -/
def SurfaceFilling.recomputeFeature (k : Kernel) (s : SurfaceFilling) : SurfaceFilling :=
  { s with
    editedObject :=
      { s.editedObject with
        status := k.recompute s.editedObject.FillType s.editedObject.BoundaryList
          s.editedObject.status }
    calls := s.calls ++ [HostCall.recomputeFeature] }

/-- Records one call into the host. -/
def SurfaceFilling.call (s : SurfaceFilling) (c : HostCall) : SurfaceFilling :=
  { s with calls := s.calls ++ [c] }

/-- Lines 175-187 and 321-334: a new item is created inside the list widget, which places it
at the end (`addItem` on an item that already belongs to the widget changes nothing), then
its text and data are set. -/
def addListItem (listWidget : List QListWidgetItem) (text : String) (data : List String) :
    List QListWidgetItem :=
  listWidget ++ [⟨text, data⟩]

/-- Lines 174-188: the loop of `setEditedObject` over the two lists of `BoundaryList`, which
runs while both iterators are inside their list. -/
def populate (app : Application) (doc : String) :
    List ObjPtr → List String → List QListWidgetItem → List QListWidgetItem
  | it :: objects, jt :: element, listWidget =>
    populate app doc objects element
      (addListItem listWidget (itemText (app.deref it).Label jt)
        [doc, (app.deref it).nameInDocument, jt])
  | _, _, listWidget => listWidget

/-- Lines 149-191: `SurfaceFilling::setEditedObject(obj)`. -/
def SurfaceFilling.setEditedObject (app : Application) (s : SurfaceFilling)
    (obj : SurfaceFeature) : SurfaceFilling :=
  let curtype := obj.FillType
  let radio :=
    if curtype = 1 then some FillRadio.fillType_stretch
    else if curtype = 2 then some FillRadio.fillType_coons
    else if curtype = 3 then some FillRadio.fillType_curved
    else s.checkedRadio
  let objects := obj.BoundaryList.getValues
  let element := obj.BoundaryList.getSubValues
  { s with
    editedObject := obj
    checkedRadio := radio
    listWidget := populate app obj.docName objects element s.listWidget
    calls := s.calls ++ [HostCall.attachDocument obj.docName] }

/-- Lines 130-137: the constructor; `setupUi` gives an empty list widget and no checked radio
button, `calls` and `gate` are the host state at that moment. -/
def SurfaceFilling.new (app : Application) (obj : SurfaceFeature)
    (gate : Option (Bool × ObjPtr)) (calls : List HostCall) : SurfaceFilling :=
  SurfaceFilling.setEditedObject app
    { editedObject := obj, selectionMode := SelectionMode.None, listWidget := [],
      checkedRadio := none, selectionGate := gate, calls := calls }
    obj

/-- The active task dialog of `Gui::Control()`: a surface filling dialog with its panel, or a
dialog of another class. -/
inductive TaskDialog where
  | surfaceFilling (widget : SurfaceFilling)
  | other
  deriving DecidableEq, Repr

/-- Lines 84-106: `ViewProviderSurfaceFeature::setEdit(ViewProvider::Default)` for the
feature `obj`, with the active dialog of `Gui::Control()` if there is one; returns the dialog
that is shown.  `gate` and `calls` are the host state a new panel starts from. -/
def ViewProviderSurfaceFeature.setEdit (app : Application) (activeDialog : Option TaskDialog)
    (obj : SurfaceFeature) (gate : Option (Bool × ObjPtr)) (calls : List HostCall) :
    TaskDialog × Bool :=
  match activeDialog with
  | some (TaskDialog.surfaceFilling widget) =>
    (TaskDialog.surfaceFilling (widget.setEditedObject app obj), true)
  | some TaskDialog.other => (TaskDialog.other, true)
  | none => (TaskDialog.surfaceFilling (SurfaceFilling.new app obj gate calls), true)

/-- Lines 222-253: `SurfaceFilling::accept()`. -/
def SurfaceFilling.accept (k : Kernel) (s : SurfaceFilling) : SurfaceFilling × Bool :=
  let s1 : SurfaceFilling :=
    { s with selectionMode := SelectionMode.None, selectionGate := none,
             calls := s.calls ++ [HostCall.rmvSelectionGate] }
  let count := s1.listWidget.length
  if count > 4 then
    (s1.call (HostCall.warning "Too many edges" "The tool requires two, three or four edges"),
      false)
  else if count < 2 then
    (s1.call (HostCall.warning "Too less edges" "The tool requires two, three or four edges"),
      false)
  else
    let s2 := if s1.editedObject.status.mustExecute then s1.recomputeFeature k else s1
    if !s2.editedObject.status.isValid then
      (s2.call (HostCall.warning "Invalid object" s2.editedObject.status.statusString), false)
    else
      (((s2.call HostCall.commitCommand).call
          (HostCall.doCommand "Gui.ActiveDocument.resetEdit()")).call HostCall.updateActive,
        true)

/-- Lines 255-264: `SurfaceFilling::reject()`. -/
def SurfaceFilling.reject (s : SurfaceFilling) : SurfaceFilling × Bool :=
  let s1 : SurfaceFilling :=
    { s with selectionMode := SelectionMode.None, selectionGate := none,
             calls := s.calls ++ [HostCall.rmvSelectionGate] }
  (((s1.call HostCall.abortCommand).call
      (HostCall.doCommand "Gui.ActiveDocument.resetEdit()")).call HostCall.updateActive,
    true)

/-- Lines 404-407: `TaskSurfaceFilling::accept()` forwards to the panel. -/
def TaskSurfaceFilling.accept (k : Kernel) (widget : SurfaceFilling) : SurfaceFilling × Bool :=
  widget.accept k

/-- Lines 409-412: `TaskSurfaceFilling::reject()` forwards to the panel. -/
def TaskSurfaceFilling.reject (widget : SurfaceFilling) : SurfaceFilling × Bool :=
  widget.reject

/-- Lines 266-300: the common body of the three fill-type handlers, for the constant `v`
they compare with and set. -/
def SurfaceFilling.fillTypeClicked (k : Kernel) (s : SurfaceFilling) (v : Int) :
    SurfaceFilling :=
  let curtype := s.editedObject.FillType
  if curtype ≠ v then
    let s1 := (s.setFillType k v).recomputeFeature k
    if !s1.editedObject.status.isValid then
      s1.call (HostCall.consoleError "Surface filling: %s" s1.editedObject.status.statusString)
    else s1
  else s

/-- Lines 266-276: `on_fillType_stretch_clicked()`. -/
def SurfaceFilling.on_fillType_stretch_clicked (k : Kernel) (s : SurfaceFilling) :
    SurfaceFilling :=
  s.fillTypeClicked k 1

/-- Lines 278-288: `on_fillType_coons_clicked()`. -/
def SurfaceFilling.on_fillType_coons_clicked (k : Kernel) (s : SurfaceFilling) :
    SurfaceFilling :=
  s.fillTypeClicked k 2

/-- Lines 290-300: `on_fillType_curved_clicked()`. -/
def SurfaceFilling.on_fillType_curved_clicked (k : Kernel) (s : SurfaceFilling) :
    SurfaceFilling :=
  s.fillTypeClicked k 3

/-- Lines 302-306: `on_buttonEdgeAdd_clicked()`. -/
def SurfaceFilling.on_buttonEdgeAdd_clicked (s : SurfaceFilling) : SurfaceFilling :=
  { s with selectionMode := SelectionMode.Append
           selectionGate := some (true, s.editedObject.addr)
           calls := s.calls ++ [HostCall.addSelectionGate true] }

/-- Lines 308-312: `on_buttonEdgeRemove_clicked()`. -/
def SurfaceFilling.on_buttonEdgeRemove_clicked (s : SurfaceFilling) : SurfaceFilling :=
  { s with selectionMode := SelectionMode.Remove
           selectionGate := some (false, s.editedObject.addr)
           calls := s.calls ++ [HostCall.addSelectionGate false] }

/-- Lines 348-354: the loop over the rows of the list widget.  Row `i` is compared with
`data`; a matching item is taken out of the widget, and in either case the loop goes on with
row `i + 1` of the widget as it is then. -/
def takeLoop (data : List String) (i : Nat) (listWidget : List QListWidgetItem) :
    List QListWidgetItem :=
  if h : i < listWidget.length then
    if (listWidget.get ⟨i, h⟩).data = data then
      takeLoop data (i + 1) (listWidget.eraseIdx i)
    else takeLoop data (i + 1) listWidget
  else listWidget
termination_by listWidget.length - i
decreasing_by
  · simp only [List.length_eraseIdx, h, if_true]
    omega
  · omega

/-- Lines 360-369: the loop over the two lists of `BoundaryList`.  At the first position
where the object is `obj` and the name is `sub`, both entries are erased and the loop ends
(`some` of the two new lists); when the loop ends without a match the result is `none`. -/
def eraseFirstPair (obj : Option ObjPtr) (sub : String) :
    List ObjPtr → List String → Option (List ObjPtr × List String)
  | it :: objects, jt :: element =>
    if some it = obj ∧ jt = sub then some (objects, element)
    else
      match eraseFirstPair obj sub objects element with
      | some (os, es) => some (it :: os, jt :: es)
      | none => none
  | _, _ => none

/-- Lines 314-374: `SurfaceFilling::onSelectionChanged(msg)`.  In append mode the label of
`sel.getObject()` is read, so a selection that names no object has no result. -/
def SurfaceFilling.onSelectionChanged (app : Application) (k : Kernel) (s : SurfaceFilling)
    (msg : SelectionChanges) : Option SurfaceFilling :=
  if s.selectionMode = SelectionMode.None then some s
  else if msg.msgType = MsgType.AddSelection then
    if s.selectionMode = SelectionMode.Append then
      match app.getObject msg.pDocName msg.pObjectName with
      | none => none
      | some selObject =>
        let text := itemText (app.deref selObject).Label msg.pSubName
        let data := [msg.pDocName, msg.pObjectName, msg.pSubName]
        let s1 := { s with listWidget := addListItem s.listWidget text data }
        let objects := s1.editedObject.BoundaryList.getValues ++ [selObject]
        let element := s1.editedObject.BoundaryList.getSubValues ++ [msg.pSubName]
        some ((s1.setBoundaryList k objects element).recomputeFeature k)
    else
      let data := [msg.pDocName, msg.pObjectName, msg.pSubName]
      let s1 := { s with listWidget := takeLoop data 0 s.listWidget }
      let obj := app.getObject msg.pDocName msg.pObjectName
      let sub := msg.pSubName
      let objects := s1.editedObject.BoundaryList.getValues
      let element := s1.editedObject.BoundaryList.getSubValues
      match eraseFirstPair obj sub objects element with
      | some (objects1, element1) =>
        some ((s1.setBoundaryList k objects1 element1).recomputeFeature k)
      | none => some (s1.recomputeFeature k)
  else some s

/-! ## Notions used in the statements -/

/-- The list entry for the pair (object, sub-element name) as the append branch of
`onSelectionChanged` builds it (lines 325-334): the text made from the label of the object
and the name, and the data (document of the object, name of the object, sub-element name).
The entry that `setEditedObject` builds (lines 178-187) has the document of the edited
object in the first place instead. -/
def entryOf (app : Application) (o : ObjPtr) (sub : String) : QListWidgetItem :=
  ⟨itemText (app.deref o).Label sub,
   [(app.deref o).docName, (app.deref o).nameInDocument, sub]⟩

/-- The list widget and `BoundaryList` are in step, each row carrying the document name of
its own object: the two lists of `BoundaryList` have the same length, the entries of the
widget are, in order, the entries `entryOf` of its pairs, and no pair occurs twice. -/
def InStep (app : Application) (s : SurfaceFilling) : Prop :=
  s.editedObject.BoundaryList.getValues.length =
      s.editedObject.BoundaryList.getSubValues.length ∧
    s.listWidget = List.zipWith (entryOf app) s.editedObject.BoundaryList.getValues
      s.editedObject.BoundaryList.getSubValues ∧
    (s.editedObject.BoundaryList.getValues.zip s.editedObject.BoundaryList.getSubValues).Nodup

/-- The rows that `takeLoop` leaves, by recursion over the rows still to visit: a matching
row goes, the row after it is kept without being looked at, a row that does not match
stays. -/
def removeSkip (data : List String) : List QListWidgetItem → List QListWidgetItem
  | [] => []
  | [x] => if x.data = data then [] else [x]
  | x :: y :: ys =>
    if x.data = data then y :: removeSkip data ys else x :: removeSkip data (y :: ys)

/-! ## Example scene -/

/-- An application with two objects in document `Doc`: the object at address 1 is a
`Part::Feature` named `Box`, the one at address 2 is named `Sketch` and is none; every other
address reads as the surface itself. -/
def demoApp : Application where
  deref := fun p =>
    if p = 1 then ⟨"Box", "Box", "Doc", true⟩
    else if p = 2 then ⟨"Sketch", "Sketch", "Doc", false⟩
    else ⟨"Surface", "Surface", "Doc", true⟩
  getObject := fun d n =>
    if d = "Doc" ∧ n = "Box" then some 1
    else if d = "Doc" ∧ n = "Sketch" then some 2
    else none

/-- The same application after the user has given the box the label `%1`. -/
def demoAppRelabelled : Application where
  deref := fun p =>
    if p = 1 then ⟨"%1", "Box", "Doc", true⟩
    else if p = 2 then ⟨"Sketch", "Sketch", "Doc", false⟩
    else ⟨"Surface", "Surface", "Doc", true⟩
  getObject := demoApp.getObject

/-- A surface at address 0 whose boundary is the single pair (Box, Edge1). -/
def demoFeature : SurfaceFeature where
  addr := 0
  Label := "Surface"
  docName := "Doc"
  FillType := 1
  BoundaryList := ⟨[1], ["Edge1"]⟩
  status := ⟨false, true, ""⟩

/-- A kernel that accepts every boundary. -/
def demoKernel : Kernel where
  recompute := fun _ _ st => { st with mustExecute := false, isValid := true }
  touched := fun st => { st with mustExecute := true }

/-- The panel as the constructor leaves it for the example surface. -/
def demoPanel : SurfaceFilling :=
  SurfaceFilling.new demoApp demoFeature none []

/-- The example panel after `setEdit` ran a second time on the open dialog and the user
then pressed the remove button. -/
def demoPanelRemoving : SurfaceFilling :=
  (demoPanel.setEditedObject demoApp demoFeature).on_buttonEdgeRemove_clicked

/-- The selection message for picking `Edge1` of the box. -/
def demoPick : SelectionChanges :=
  ⟨MsgType.AddSelection, "Doc", "Box", "Edge1"⟩

/-- The example panel after the user pressed the add button. -/
def demoPanelAppending : SurfaceFilling :=
  demoPanel.on_buttonEdgeAdd_clicked

/-- The example panel after the user pressed the remove button. -/
def demoPanelRemovingOnce : SurfaceFilling :=
  demoPanel.on_buttonEdgeRemove_clicked

/-- The selection message for picking `Edge2` of the box. -/
def demoPickNew : SelectionChanges :=
  ⟨MsgType.AddSelection, "Doc", "Box", "Edge2"⟩

/-- An application with a second document `Other`: the object at address 3 is a
`Part::Feature` named `Box` in `Other`; the other addresses read as in `demoApp`. -/
def demoAppTwoDocs : Application where
  deref := fun p => if p = 3 then ⟨"Box", "Box", "Other", true⟩ else demoApp.deref p
  getObject := fun d n =>
    if d = "Other" ∧ n = "Box" then some 3 else demoApp.getObject d n

/-- A surface of document `Doc` whose boundary is two edges of the box of document `Other`,
as two append picks of those edges leave it. -/
def demoFeatureOtherDoc : SurfaceFeature where
  addr := 0
  Label := "Surface"
  docName := "Doc"
  FillType := 1
  BoundaryList := ⟨[3, 3], ["Edge1", "Edge2"]⟩
  status := ⟨false, true, ""⟩

/-- The panel as the constructor leaves it for that surface. -/
def demoPanelOtherDoc : SurfaceFilling :=
  SurfaceFilling.new demoAppTwoDocs demoFeatureOtherDoc none []

/-- The selection message for picking `Edge1` of the box of document `Other`. -/
def demoPickOtherDoc : SelectionChanges :=
  ⟨MsgType.AddSelection, "Other", "Box", "Edge1"⟩

/-! ## The selection gate -/

theorem mem_addSub (link : ObjPtr) (sub : String) (o : ObjPtr) (s : String) :
    ∀ acc : List (ObjPtr × List String),
      (∃ it ∈ addSub link sub acc, it.1 = o ∧ s ∈ it.2) ↔
        ((∃ it ∈ acc, it.1 = o ∧ s ∈ it.2) ∨ (link = o ∧ sub = s)) := by
  intro acc
  induction acc with
  | nil =>
    constructor
    · rintro ⟨it, hit, h1, h2⟩
      simp only [addSub, List.mem_singleton] at hit
      subst hit
      simp only [List.mem_singleton] at h2
      exact Or.inr ⟨h1, h2.symm⟩
    · rintro (⟨it, hit, _⟩ | ⟨h1, h2⟩)
      · simp at hit
      · exact ⟨(link, [sub]), by simp [addSub], h1, by simp [h2]⟩
  | cons hd rest ih =>
    obtain ⟨o', ss⟩ := hd
    unfold addSub
    by_cases hol : o' = link
    · subst hol
      simp only [if_true]
      constructor
      · rintro ⟨it, hit, h1, h2⟩
        rcases List.mem_cons.1 hit with rfl | hit
        · rcases List.mem_append.1 h2 with h2 | h2
          · exact Or.inl ⟨(o', ss), List.mem_cons_self _ _, h1, h2⟩
          · exact Or.inr ⟨h1, (List.mem_singleton.1 h2).symm⟩
        · exact Or.inl ⟨it, List.mem_cons_of_mem _ hit, h1, h2⟩
      · rintro (⟨it, hit, h1, h2⟩ | ⟨h1, h2⟩)
        · rcases List.mem_cons.1 hit with rfl | hit
          · exact ⟨(o', ss ++ [sub]), List.mem_cons_self _ _, h1,
              List.mem_append.2 (Or.inl h2)⟩
          · exact ⟨it, List.mem_cons_of_mem _ hit, h1, h2⟩
        · exact ⟨(o', ss ++ [sub]), List.mem_cons_self _ _, h1,
            List.mem_append.2 (Or.inr (List.mem_singleton.2 h2.symm))⟩
    · simp only [hol, if_false]
      constructor
      · rintro ⟨it, hit, h1, h2⟩
        rcases List.mem_cons.1 hit with rfl | hit
        · exact Or.inl ⟨(o', ss), List.mem_cons_self _ _, h1, h2⟩
        · rcases ih.1 ⟨it, hit, h1, h2⟩ with ⟨jt, hjt, h3, h4⟩ | h
          · exact Or.inl ⟨jt, List.mem_cons_of_mem _ hjt, h3, h4⟩
          · exact Or.inr h
      · rintro (⟨it, hit, h1, h2⟩ | h)
        · rcases List.mem_cons.1 hit with rfl | hit
          · exact ⟨(o', ss), List.mem_cons_self _ _, h1, h2⟩
          · obtain ⟨jt, hjt, h3, h4⟩ := ih.2 (Or.inl ⟨it, hit, h1, h2⟩)
            exact ⟨jt, List.mem_cons_of_mem _ hjt, h3, h4⟩
        · obtain ⟨jt, hjt, h3, h4⟩ := ih.2 (Or.inr h)
          exact ⟨jt, List.mem_cons_of_mem _ hjt, h3, h4⟩

theorem mem_foldl_addSub (o : ObjPtr) (s : String) :
    ∀ (pairs : List (ObjPtr × String)) (acc : List (ObjPtr × List String)),
      (∃ it ∈ pairs.foldl (fun acc it => addSub it.1 it.2 acc) acc, it.1 = o ∧ s ∈ it.2) ↔
        ((∃ it ∈ acc, it.1 = o ∧ s ∈ it.2) ∨ (o, s) ∈ pairs) := by
  intro pairs
  induction pairs with
  | nil => intro acc; simp
  | cons p rest ih =>
    intro acc
    rw [List.foldl_cons, ih, mem_addSub, List.mem_cons]
    have hp : (o, s) = p ↔ (p.1 = o ∧ p.2 = s) := by
      obtain ⟨a, b⟩ := p
      simp only [Prod.mk.injEq]
      constructor
      · rintro ⟨h1, h2⟩; exact ⟨h1.symm, h2.symm⟩
      · rintro ⟨h1, h2⟩; exact ⟨h1.symm, h2.symm⟩
    rw [hp]
    constructor
    · rintro ((h | h) | h)
      · exact Or.inl h
      · exact Or.inr (Or.inl h)
      · exact Or.inr (Or.inr h)
    · rintro (h | h | h)
      · exact Or.inl (Or.inl h)
      · exact Or.inl (Or.inr h)
      · exact Or.inr h

/-- The search of `allow` through the grouped pairs finds the pick exactly when the pair is
in the paired list. -/
theorem any_getSubListValues (p : PropertyLinkSubList) (o : ObjPtr) (s : String) :
    (p.getSubListValues.any (fun it => it.1 == o && it.2.any (fun jt => jt == s))) =
      decide ((o, s) ∈ p.values.zip p.subs) := by
  rw [Bool.eq_iff_iff]
  simp only [List.any_eq_true, Bool.and_eq_true, beq_iff_eq, decide_eq_true_eq]
  have h := mem_foldl_addSub o s (p.values.zip p.subs) []
  simp only [List.not_mem_nil, false_and, exists_false, false_or] at h
  rw [← h]
  unfold PropertyLinkSubList.getSubListValues
  constructor
  · rintro ⟨it, h1, h2, jt, h3, h4⟩
    exact ⟨it, h1, h2, h4 ▸ h3⟩
  · rintro ⟨it, h1, h2, h3⟩
    exact ⟨it, h1, h2, s, h3, rfl⟩

/-- C1: `EdgeSelection::allow` returns false, whatever `appendEdges` and `BoundaryList` are,
when the picked object is the edited object, or is no `Part::Feature`, or the sub-element
name is null or empty, or its first four characters are not `Edge`. -/
theorem allow_rejects_unusable_pick (g : EdgeSelection) (app : Application) (doc : String)
    (pObj : ObjPtr) (sSubName : Option String)
    (h : pObj = g.editedObject.addr ∨ (app.deref pObj).isPartFeature = false ∨
      sSubName = none ∨ sSubName = some "" ∨
      ∃ element, sSubName = some element ∧ element.toList.take 4 ≠ ['E', 'd', 'g', 'e']) :
    g.allow app doc pObj sSubName = false := by
  unfold EdgeSelection.allow
  rcases h with h | h | h | h | ⟨element, h, h4⟩
  · simp [h]
  · simp [h]
  · subst h; simp
  · subst h; simp
  · subst h
    have he : "Edge".toList = ['E', 'd', 'g', 'e'] := rfl
    rw [he]
    simp only [ne_eq, h4, not_false_eq_true, if_true]
    split_ifs <;> rfl

/-- Witness of C1 in the example scene: a face of the box is rejected by the append gate. -/
theorem allow_rejects_unusable_pick_witness :
    ("Face1".toList.take 4 ≠ ['E', 'd', 'g', 'e']) ∧
    (EdgeSelection.allow ⟨true, demoFeature⟩ demoApp "Doc" 1 (some "Face1") = false) :=
  ⟨by decide,
   allow_rejects_unusable_pick ⟨true, demoFeature⟩ demoApp "Doc" 1 (some "Face1")
     (Or.inr (Or.inr (Or.inr (Or.inr ⟨"Face1", rfl, by decide⟩))))⟩

/-- For a pick that passes the basic checks, `allow` is `appendEdges` XOR membership. -/
theorem allow_of_basic_checks (b : Bool) (edited : SurfaceFeature) (app : Application)
    (doc : String) (pObj : ObjPtr) (element : String)
    (hself : pObj ≠ edited.addr)
    (hpart : (app.deref pObj).isPartFeature = true)
    (hnil : element.toList ≠ [])
    (hedge : element.toList.take 4 = ['E', 'd', 'g', 'e']) :
    EdgeSelection.allow ⟨b, edited⟩ app doc pObj (some element) =
      xor b (decide ((pObj, element) ∈
        edited.BoundaryList.getValues.zip edited.BoundaryList.getSubValues)) := by
  have he : "Edge".toList = ['E', 'd', 'g', 'e'] := rfl
  unfold EdgeSelection.allow
  rw [he]
  simp only [hself, if_false, hpart, Bool.not_true, Bool.false_eq_true, hnil, hedge,
    ne_eq, not_true_eq_false, any_getSubListValues, PropertyLinkSubList.getValues,
    PropertyLinkSubList.getSubValues]
  cases b <;>
    cases decide ((pObj, element) ∈ edited.BoundaryList.values.zip edited.BoundaryList.subs) <;>
    rfl

/-- A pick that `allow` accepts has passed the basic checks. -/
theorem basic_checks_of_allow (g : EdgeSelection) (app : Application) (doc : String)
    (pObj : ObjPtr) (element : String)
    (h : g.allow app doc pObj (some element) = true) :
    pObj ≠ g.editedObject.addr ∧ (app.deref pObj).isPartFeature = true ∧
      element.toList ≠ [] ∧ element.toList.take 4 = ['E', 'd', 'g', 'e'] := by
  have he : "Edge".toList = ['E', 'd', 'g', 'e'] := rfl
  unfold EdgeSelection.allow at h
  rw [he] at h
  by_cases h1 : pObj = g.editedObject.addr
  · simp [h1] at h
  · by_cases h2 : (app.deref pObj).isPartFeature = true
    · simp only [h1, h2, if_false, Bool.not_true, Bool.false_eq_true] at h
      simp at h
      exact ⟨h1, h2, h.1, h.2.1⟩
    · simp [h1, h2] at h

/-- C2: for a pick that passes the basic checks, `allow` returns `appendEdges` XOR (the pair
is in `BoundaryList`): the append gate accepts exactly the pairs not yet in the list, the
remove gate exactly the pairs in the list, and never both. -/
theorem allow_eq_xor_member (g : EdgeSelection) (app : Application) (doc : String)
    (pObj : ObjPtr) (element : String)
    (hself : pObj ≠ g.editedObject.addr)
    (hpart : (app.deref pObj).isPartFeature = true)
    (hne : element ≠ "")
    (hedge : element.toList.take 4 = ['E', 'd', 'g', 'e']) :
    g.allow app doc pObj (some element) =
      xor g.appendEdges (decide ((pObj, element) ∈
        g.editedObject.BoundaryList.getValues.zip
          g.editedObject.BoundaryList.getSubValues)) ∧
    (EdgeSelection.allow ⟨true, g.editedObject⟩ app doc pObj (some element) = true ↔
      (pObj, element) ∉
        g.editedObject.BoundaryList.getValues.zip g.editedObject.BoundaryList.getSubValues) ∧
    (EdgeSelection.allow ⟨false, g.editedObject⟩ app doc pObj (some element) = true ↔
      (pObj, element) ∈
        g.editedObject.BoundaryList.getValues.zip g.editedObject.BoundaryList.getSubValues) ∧
    ¬ (EdgeSelection.allow ⟨true, g.editedObject⟩ app doc pObj (some element) = true ∧
       EdgeSelection.allow ⟨false, g.editedObject⟩ app doc pObj (some element) = true) := by
  have hnil : element.toList ≠ [] := by
    intro h
    apply hne
    exact String.ext (by simpa using h)
  have key := fun b => allow_of_basic_checks b g.editedObject app doc pObj element hself hpart
    hnil hedge
  refine ⟨key g.appendEdges, ?_, ?_, ?_⟩
  · rw [key]; simp
  · rw [key]; simp
  · rw [key, key]; simp

/-- Witness of C2 in the example scene: `Edge1` of the box is in the boundary, so the remove
gate accepts it and the append gate does not. -/
theorem allow_eq_xor_member_witness :
    (1 ≠ demoFeature.addr ∧ (demoApp.deref 1).isPartFeature = true ∧ "Edge1" ≠ "" ∧
      "Edge1".toList.take 4 = ['E', 'd', 'g', 'e']) ∧
    EdgeSelection.allow ⟨false, demoFeature⟩ demoApp "Doc" 1 (some "Edge1") = true ∧
    EdgeSelection.allow ⟨true, demoFeature⟩ demoApp "Doc" 1 (some "Edge1") = false :=
  ⟨by decide,
   (allow_eq_xor_member ⟨false, demoFeature⟩ demoApp "Doc" 1 "Edge1" (by decide) (by decide)
      (by decide) (by decide)).2.2.1.2 (by decide),
   by decide⟩

/-! ## Accept and reject -/

/-- C3: `accept()` returns true exactly when the list widget holds 2, 3 or 4 entries and the
edited object, recomputed first when `mustExecute()` holds, is valid; in that case the
pending command is committed once, in every other case it is not committed, and it is never
aborted.  `TaskSurfaceFilling::accept` returns what the panel returns. -/
theorem accept_commits_iff_two_to_four_valid (k : Kernel) (s : SurfaceFilling) :
    ((s.accept k).2 = true ↔
      (2 ≤ s.listWidget.length ∧ s.listWidget.length ≤ 4 ∧
        (if s.editedObject.status.mustExecute then
          k.recompute s.editedObject.FillType s.editedObject.BoundaryList s.editedObject.status
         else s.editedObject.status).isValid = true)) ∧
    (∃ new, (s.accept k).1.calls = s.calls ++ new ∧
      HostCall.abortCommand ∉ new ∧
      ((s.accept k).2 = true → new.count HostCall.commitCommand = 1) ∧
      ((s.accept k).2 = false → HostCall.commitCommand ∉ new)) ∧
    TaskSurfaceFilling.accept k s = s.accept k := by
  refine ⟨?_, ?_, rfl⟩
  · unfold SurfaceFilling.accept
    simp only [SurfaceFilling.call, SurfaceFilling.recomputeFeature]
    by_cases h4 : s.listWidget.length > 4
    · simp only [h4, if_true]
      constructor
      · intro h; cases h
      · rintro ⟨_, h, _⟩; omega
    · by_cases h2 : s.listWidget.length < 2
      · simp only [h4, h2, if_true, if_false]
        constructor
        · intro h; cases h
        · rintro ⟨h, _⟩; omega
      · simp only [h4, h2, if_false]
        have h2' : 2 ≤ s.listWidget.length := by omega
        have h4' : s.listWidget.length ≤ 4 := by omega
        cases hm : s.editedObject.status.mustExecute <;>
          simp only [hm, if_true, if_false, Bool.false_eq_true] <;>
          split_ifs with hv <;> simp_all
  · unfold SurfaceFilling.accept
    simp only [SurfaceFilling.call, SurfaceFilling.recomputeFeature]
    by_cases h4 : s.listWidget.length > 4
    · simp only [h4, if_true]
      exact ⟨[HostCall.rmvSelectionGate, HostCall.warning "Too many edges"
        "The tool requires two, three or four edges"], by simp, by simp, by simp, by simp⟩
    · by_cases h2 : s.listWidget.length < 2
      · simp only [h4, h2, if_true, if_false]
        exact ⟨[HostCall.rmvSelectionGate, HostCall.warning "Too less edges"
          "The tool requires two, three or four edges"], by simp, by simp, by simp, by simp⟩
      · simp only [h4, h2, if_false]
        cases hm : s.editedObject.status.mustExecute
        · simp only [Bool.false_eq_true, if_false]
          split_ifs with hv
          · exact ⟨[HostCall.rmvSelectionGate, HostCall.warning "Invalid object"
              s.editedObject.status.statusString], by simp, by simp, by simp, by simp⟩
          · exact ⟨[HostCall.rmvSelectionGate, HostCall.commitCommand,
              HostCall.doCommand "Gui.ActiveDocument.resetEdit()", HostCall.updateActive],
              by simp, by simp, by simp, by simp⟩
        · simp only [if_true]
          split_ifs with hv
          · exact ⟨[HostCall.rmvSelectionGate, HostCall.recomputeFeature,
              HostCall.warning "Invalid object"
                (k.recompute s.editedObject.FillType s.editedObject.BoundaryList
                  s.editedObject.status).statusString], by simp, by simp, by simp, by simp⟩
          · exact ⟨[HostCall.rmvSelectionGate, HostCall.recomputeFeature,
              HostCall.commitCommand,
              HostCall.doCommand "Gui.ActiveDocument.resetEdit()", HostCall.updateActive],
              by simp, by simp, by simp, by simp⟩

/-- C4: `reject()` returns true for every panel state, aborts the pending command exactly
once, does not commit it, and leaves `selectionMode` equal to `None` with no selection gate
installed.  `TaskSurfaceFilling::reject` returns what the panel returns. -/
theorem reject_aborts_once_never_commits (s : SurfaceFilling) :
    s.reject.2 = true ∧
    (∃ new, s.reject.1.calls = s.calls ++ new ∧
      new.count HostCall.abortCommand = 1 ∧ HostCall.commitCommand ∉ new ∧
      HostCall.rmvSelectionGate ∈ new) ∧
    s.reject.1.selectionMode = SelectionMode.None ∧
    s.reject.1.selectionGate = none ∧
    TaskSurfaceFilling.reject s = s.reject := by
  refine ⟨rfl, ⟨[HostCall.rmvSelectionGate, HostCall.abortCommand,
    HostCall.doCommand "Gui.ActiveDocument.resetEdit()", HostCall.updateActive], ?_, ?_, ?_, ?_⟩,
    rfl, rfl, rfl⟩
  · simp [SurfaceFilling.reject, SurfaceFilling.call]
  · simp
  · simp
  · simp

/-! ## Fill type -/

theorem fillTypeClicked_spec (k : Kernel) (s : SurfaceFilling) (v : Int) :
    (s.fillTypeClicked k v).editedObject.FillType = v ∧
    (s.fillTypeClicked k v).editedObject.BoundaryList = s.editedObject.BoundaryList ∧
    (s.editedObject.FillType = v → s.fillTypeClicked k v = s) ∧
    (s.fillTypeClicked k v).fillTypeClicked k v = s.fillTypeClicked k v := by
  have h1 : (s.fillTypeClicked k v).editedObject.FillType = v := by
    unfold SurfaceFilling.fillTypeClicked
    simp only [SurfaceFilling.setFillType, SurfaceFilling.recomputeFeature, SurfaceFilling.call]
    split_ifs with h h'
    · rfl
    · rfl
    · exact not_not.1 h
  have h3 : ∀ t : SurfaceFilling, t.editedObject.FillType = v → t.fillTypeClicked k v = t := by
    intro t ht
    unfold SurfaceFilling.fillTypeClicked
    simp [ht]
  refine ⟨h1, ?_, h3 s, h3 _ h1⟩
  unfold SurfaceFilling.fillTypeClicked
  simp only [SurfaceFilling.setFillType, SurfaceFilling.recomputeFeature, SurfaceFilling.call]
  split_ifs <;> rfl

/-- C8: each of the three fill-type handlers (k = 1 stretch, 2 coons, 3 curved) leaves
`FillType` equal to k and `BoundaryList` unchanged; when `FillType` already equals k the
handler changes nothing at all (no property written, no recompute, no call into the host),
so invoking it twice in a row gives the same state as invoking it once. -/
theorem fillType_handlers_set_and_idempotent (k : Kernel) (s : SurfaceFilling) :
    ((s.on_fillType_stretch_clicked k).editedObject.FillType = 1 ∧
      (s.on_fillType_stretch_clicked k).editedObject.BoundaryList = s.editedObject.BoundaryList ∧
      (s.editedObject.FillType = 1 → s.on_fillType_stretch_clicked k = s) ∧
      (s.on_fillType_stretch_clicked k).on_fillType_stretch_clicked k =
        s.on_fillType_stretch_clicked k) ∧
    ((s.on_fillType_coons_clicked k).editedObject.FillType = 2 ∧
      (s.on_fillType_coons_clicked k).editedObject.BoundaryList = s.editedObject.BoundaryList ∧
      (s.editedObject.FillType = 2 → s.on_fillType_coons_clicked k = s) ∧
      (s.on_fillType_coons_clicked k).on_fillType_coons_clicked k =
        s.on_fillType_coons_clicked k) ∧
    ((s.on_fillType_curved_clicked k).editedObject.FillType = 3 ∧
      (s.on_fillType_curved_clicked k).editedObject.BoundaryList = s.editedObject.BoundaryList ∧
      (s.editedObject.FillType = 3 → s.on_fillType_curved_clicked k = s) ∧
      (s.on_fillType_curved_clicked k).on_fillType_curved_clicked k =
        s.on_fillType_curved_clicked k) :=
  ⟨fillTypeClicked_spec k s 1, fillTypeClicked_spec k s 2, fillTypeClicked_spec k s 3⟩

/-! ## Selection events: the boundary list -/

theorem eraseFirstPair_first_match (obj : ObjPtr) (sub : String) :
    ∀ (objects : List ObjPtr) (element : List String) (i : Nat),
      objects[i]? = some obj → element[i]? = some sub →
      (∀ j : Nat, j < i → ¬ (objects[j]? = some obj ∧ element[j]? = some sub)) →
      eraseFirstPair (some obj) sub objects element =
        some (objects.eraseIdx i, element.eraseIdx i) := by
  intro objects
  induction objects with
  | nil => intro element i h; simp at h
  | cons o os ih =>
    intro element i ho he hmin
    cases element with
    | nil => simp at he
    | cons e es =>
      cases i with
      | zero =>
        simp only [List.getElem?_cons_zero, Option.some.injEq] at ho he
        simp [eraseFirstPair, ho, he]
      | succ n =>
        have h0 : ¬ (some o = some obj ∧ e = sub) := by
          intro h
          exact hmin 0 (Nat.succ_pos n) (by simpa using h)
        simp only [List.getElem?_cons_succ] at ho he
        have hrec := ih es n ho he (fun j hj hm => hmin (j + 1) (Nat.succ_lt_succ hj)
          (by simpa using hm))
        simp only [eraseFirstPair, h0, if_false, hrec, List.eraseIdx_cons_succ]

theorem eraseFirstPair_no_match (obj : ObjPtr) (sub : String) :
    ∀ (objects : List ObjPtr) (element : List String),
      (∀ i : Nat, ¬ (objects[i]? = some obj ∧ element[i]? = some sub)) →
      eraseFirstPair (some obj) sub objects element = none := by
  intro objects
  induction objects with
  | nil => intro element _; simp [eraseFirstPair]
  | cons o os ih =>
    intro element hno
    cases element with
    | nil => simp [eraseFirstPair]
    | cons e es =>
      have h0 : ¬ (some o = some obj ∧ e = sub) := by
        intro h
        exact hno 0 (by simpa using h)
      have hrec := ih es (fun i hm => hno (i + 1) (by simpa using hm))
      simp only [eraseFirstPair, h0, if_false, hrec]

/-- C5: an `AddSelection` event in append mode appends the picked object to the objects of
`BoundaryList` and the picked sub-element name to its names: the existing pairs keep their
values and order, both lists grow by one, the new pair is last. -/
theorem append_pick_adds_pair_at_end (app : Application) (k : Kernel) (s : SurfaceFilling)
    (msg : SelectionChanges) (picked : ObjPtr)
    (hmode : s.selectionMode = SelectionMode.Append)
    (htype : msg.msgType = MsgType.AddSelection)
    (hpick : app.getObject msg.pDocName msg.pObjectName = some picked)
    (hlen : s.editedObject.BoundaryList.getValues.length =
      s.editedObject.BoundaryList.getSubValues.length) :
    ∃ s', s.onSelectionChanged app k msg = some s' ∧
      s'.editedObject.BoundaryList.getValues =
        s.editedObject.BoundaryList.getValues ++ [picked] ∧
      s'.editedObject.BoundaryList.getSubValues =
        s.editedObject.BoundaryList.getSubValues ++ [msg.pSubName] ∧
      s'.editedObject.BoundaryList.getValues.length =
        s.editedObject.BoundaryList.getValues.length + 1 ∧
      s'.editedObject.BoundaryList.getSubValues.length =
        s'.editedObject.BoundaryList.getValues.length := by
  unfold SurfaceFilling.onSelectionChanged
  simp only [hmode, htype, hpick, if_true, if_false, reduceCtorEq]
  refine ⟨_, rfl, rfl, rfl, ?_, ?_⟩ <;>
  · simp only [SurfaceFilling.recomputeFeature, SurfaceFilling.setBoundaryList,
      PropertyLinkSubList.setValues, PropertyLinkSubList.getValues,
      PropertyLinkSubList.getSubValues, List.length_append, List.length_singleton] at hlen ⊢
    try omega

/-- C6: an `AddSelection` event in remove mode, on a `BoundaryList` whose two lists have
equal length, erases the entries at the smallest index where the object is the picked object
and the name the picked name, at that same index in both lists (so the other pairs keep
their values and order); when no index matches, `BoundaryList` is unchanged. -/
theorem remove_pick_erases_first_matching_pair (app : Application) (k : Kernel)
    (s : SurfaceFilling) (msg : SelectionChanges) (picked : ObjPtr)
    (hmode : s.selectionMode = SelectionMode.Remove)
    (htype : msg.msgType = MsgType.AddSelection)
    (hpick : app.getObject msg.pDocName msg.pObjectName = some picked)
    (_hlen : s.editedObject.BoundaryList.getValues.length =
      s.editedObject.BoundaryList.getSubValues.length) :
    ∃ s', s.onSelectionChanged app k msg = some s' ∧
      (∀ i : Nat, s.editedObject.BoundaryList.getValues[i]? = some picked →
        s.editedObject.BoundaryList.getSubValues[i]? = some msg.pSubName →
        (∀ j : Nat, j < i → ¬ (s.editedObject.BoundaryList.getValues[j]? = some picked ∧
          s.editedObject.BoundaryList.getSubValues[j]? = some msg.pSubName)) →
        s'.editedObject.BoundaryList.getValues =
            s.editedObject.BoundaryList.getValues.eraseIdx i ∧
          s'.editedObject.BoundaryList.getSubValues =
            s.editedObject.BoundaryList.getSubValues.eraseIdx i) ∧
      ((∀ i : Nat, ¬ (s.editedObject.BoundaryList.getValues[i]? = some picked ∧
          s.editedObject.BoundaryList.getSubValues[i]? = some msg.pSubName)) →
        s'.editedObject.BoundaryList = s.editedObject.BoundaryList) := by
  unfold SurfaceFilling.onSelectionChanged
  simp only [hmode, htype, hpick, if_true, if_false, reduceCtorEq]
  cases hr : eraseFirstPair (some picked) msg.pSubName
      s.editedObject.BoundaryList.getValues s.editedObject.BoundaryList.getSubValues with
  | none =>
    refine ⟨_, rfl, ?_, fun _ => rfl⟩
    intro i hi hj hmin
    rw [eraseFirstPair_first_match picked msg.pSubName _ _ i hi hj hmin] at hr
    cases hr
  | some r =>
    obtain ⟨objects1, element1⟩ := r
    refine ⟨_, rfl, ?_, ?_⟩
    · intro i hi hj hmin
      rw [eraseFirstPair_first_match picked msg.pSubName _ _ i hi hj hmin] at hr
      simp only [Option.some.injEq, Prod.mk.injEq] at hr
      exact ⟨hr.1.symm, hr.2.symm⟩
    · intro hno
      rw [eraseFirstPair_no_match picked msg.pSubName _ _ hno] at hr
      cases hr

/-! ## The text of an entry -/

theorem readEscape_of_ne (c : Char) (cs : List Char) (h : c ≠ '%') :
    readEscape (c :: cs) = none := by
  unfold readEscape
  split
  · rename_i heq; simp only [List.cons.injEq] at heq; exact absurd heq.1 h
  · rename_i heq; simp only [List.cons.injEq] at heq; exact absurd heq.1 h
  · rfl

theorem findArgEscapes_append_left (r : List Char) :
    ∀ l : List Char, '%' ∉ l → findArgEscapes 0 (l ++ r) = findArgEscapes 0 r := by
  intro l
  induction l with
  | nil => intro _; rfl
  | cons c cs ih =>
    intro h
    have hc : c ≠ '%' := fun e => h (e ▸ List.mem_cons_self _ _)
    have hcs : '%' ∉ cs := fun e => h (List.mem_cons_of_mem _ e)
    rw [List.cons_append, findArgEscapes, readEscape_of_ne c _ hc]
    exact ih hcs

theorem replaceArgEscapes_append_left (n : Nat) (a r : List Char) :
    ∀ l : List Char, '%' ∉ l →
      replaceArgEscapes n a 0 (l ++ r) = l ++ replaceArgEscapes n a 0 r := by
  intro l
  induction l with
  | nil => intro _; rfl
  | cons c cs ih =>
    intro h
    have hc : c ≠ '%' := fun e => h (e ▸ List.mem_cons_self _ _)
    have hcs : '%' ∉ cs := fun e => h (List.mem_cons_of_mem _ e)
    rw [List.cons_append, replaceArgEscapes, readEscape_of_ne c _ hc]
    simp only [List.cons_append, List.cons.injEq, true_and]
    exact ih hcs

/-- For a label without percent sign the text of an entry is the label, a dot and the
sub-element name. -/
theorem itemText_eq (label sub : String) (h : '%' ∉ label.toList) :
    itemText label sub = label ++ "." ++ sub := by
  have h1 : QString.arg "%1.%2" label = String.mk (label.toList ++ ['.', '%', '2']) := rfl
  unfold itemText
  rw [h1]
  unfold QString.arg
  have h2 : (String.mk (label.toList ++ ['.', '%', '2'])).toList =
      label.toList ++ ['.', '%', '2'] := rfl
  rw [h2, findArgEscapes_append_left _ _ h]
  have h3 : findArgEscapes 0 ['.', '%', '2'] = some 2 := by decide
  rw [h3]
  simp only
  rw [replaceArgEscapes_append_left _ _ _ _ h]
  have h4 : replaceArgEscapes 2 sub.toList 0 ['.', '%', '2'] = '.' :: sub.toList := by
    simp [replaceArgEscapes, readEscape, digitValue]
  rw [h4]
  apply String.ext
  simp [String.toList]

/-! ## Filling the list widget -/

theorem populate_eq (app : Application) (doc : String) :
    ∀ (objects : List ObjPtr) (element : List String) (listWidget : List QListWidgetItem),
      populate app doc objects element listWidget =
        listWidget ++ List.zipWith
          (fun o e => (⟨itemText (app.deref o).Label e,
            [doc, (app.deref o).nameInDocument, e]⟩ : QListWidgetItem)) objects element := by
  intro objects
  induction objects with
  | nil => intro element listWidget; cases element <;> simp [populate]
  | cons o os ih =>
    intro element listWidget
    cases element with
    | nil => simp [populate]
    | cons e es => simp [populate, ih, addListItem]

/-- Whatever the list widget holds before, `setEditedObject(obj)` leaves those rows in
place and adds, after them, one row for each position that both lists of `BoundaryList`
have. -/
theorem setEditedObject_appends (app : Application) (s : SurfaceFilling)
    (obj : SurfaceFeature) :
    (s.setEditedObject app obj).listWidget =
      s.listWidget ++ List.zipWith
        (fun o e => (⟨itemText (app.deref o).Label e,
          [obj.docName, (app.deref o).nameInDocument, e]⟩ : QListWidgetItem))
        obj.BoundaryList.getValues obj.BoundaryList.getSubValues := by
  simp [SurfaceFilling.setEditedObject, populate_eq]

/-- What holds of `setEditedObject(obj)` on the path of the constructor: started from an
empty list widget, with `BoundaryList` holding n objects and n names, it leaves exactly n
entries; the i-th entry has the data (document name of the edited object, name of the i-th
object, i-th sub-element name), and its text is `label.sub` at least when the label of the
i-th object has no percent sign. -/
theorem setEditedObject_fills_empty_widget (app : Application) (s : SurfaceFilling)
    (obj : SurfaceFeature)
    (hempty : s.listWidget = [])
    (hlen : obj.BoundaryList.getValues.length = obj.BoundaryList.getSubValues.length) :
    (s.setEditedObject app obj).listWidget.length = obj.BoundaryList.getValues.length ∧
    (∀ (i : Nat) (o : ObjPtr) (sub : String),
      obj.BoundaryList.getValues[i]? = some o → obj.BoundaryList.getSubValues[i]? = some sub →
      ∃ item, (s.setEditedObject app obj).listWidget[i]? = some item ∧
        item.data = [obj.docName, (app.deref o).nameInDocument, sub] ∧
        ('%' ∉ (app.deref o).Label.toList → item.text = (app.deref o).Label ++ "." ++ sub)) ∧
    (∀ gate calls, (SurfaceFilling.new app obj gate calls).listWidget =
      (s.setEditedObject app obj).listWidget) := by
  have hlw : (s.setEditedObject app obj).listWidget =
      List.zipWith (fun o e => (⟨itemText (app.deref o).Label e,
        [obj.docName, (app.deref o).nameInDocument, e]⟩ : QListWidgetItem))
        obj.BoundaryList.getValues obj.BoundaryList.getSubValues := by
    rw [setEditedObject_appends, hempty, List.nil_append]
  refine ⟨?_, ?_, ?_⟩
  · rw [hlw, List.length_zipWith, ← hlen, Nat.min_self]
  · intro i o sub ho hs
    refine ⟨⟨itemText (app.deref o).Label sub,
      [obj.docName, (app.deref o).nameInDocument, sub]⟩, ?_, rfl, ?_⟩
    · rw [hlw, List.getElem?_zipWith, ho, hs]
    · intro hl
      exact itemText_eq _ _ hl
  · intro gate calls
    rw [hlw]
    simp [SurfaceFilling.new, SurfaceFilling.setEditedObject, populate_eq]

/-- The panel that the constructor builds for the example surface has one entry,
`Box.Edge1`. -/
theorem setEditedObject_fills_empty_widget_witness :
    demoPanel.listWidget.length = demoFeature.BoundaryList.getValues.length ∧
    demoPanel.listWidget = [⟨"Box.Edge1", ["Doc", "Box", "Edge1"]⟩] :=
  ⟨(setEditedObject_fills_empty_widget demoApp
      { editedObject := demoFeature, selectionMode := SelectionMode.None, listWidget := [],
        checkedRadio := none, selectionGate := none, calls := [] }
      demoFeature rfl rfl).1,
   by decide⟩

/-- C7 at two failing inputs.  First, the surface with the one pair (Box, Edge1): the branch
of `setEdit` without open dialog builds a panel with one row, which `accept()` refuses as
too few edges; the branch for the open dialog runs `setEditedObject` on that panel again
and leaves two equal rows for the one pair, which `accept()` then takes.  Second, the same
surface after the box was given the label `%1`: the text of its row is `Edge1.%2`, not
`%1.Edge1`. -/
theorem setEditedObject_not_exactly_n_entries :
    (ViewProviderSurfaceFeature.setEdit demoApp none demoFeature none []).1 =
      TaskDialog.surfaceFilling demoPanel ∧
    demoPanel.listWidget.length = demoFeature.BoundaryList.getValues.length ∧
    (demoPanel.accept demoKernel).2 = false ∧
    (ViewProviderSurfaceFeature.setEdit demoApp (some (TaskDialog.surfaceFilling demoPanel))
        demoFeature none []).1 =
      TaskDialog.surfaceFilling (demoPanel.setEditedObject demoApp demoFeature) ∧
    (demoPanel.setEditedObject demoApp demoFeature).listWidget.length ≠
      demoFeature.BoundaryList.getValues.length ∧
    (demoPanel.setEditedObject demoApp demoFeature).listWidget =
      [⟨"Box.Edge1", ["Doc", "Box", "Edge1"]⟩, ⟨"Box.Edge1", ["Doc", "Box", "Edge1"]⟩] ∧
    (demoPanel.setEditedObject demoApp demoFeature).editedObject.BoundaryList =
      ⟨[1], ["Edge1"]⟩ ∧
    ((demoPanel.setEditedObject demoApp demoFeature).accept demoKernel).2 = true ∧
    (SurfaceFilling.new demoAppRelabelled demoFeature none []).listWidget =
      [⟨"Edge1.%2", ["Doc", "Box", "Edge1"]⟩] ∧
    (demoAppRelabelled.deref 1).Label ++ "." ++ "Edge1" ≠ "Edge1.%2" := by
  refine ⟨rfl, by decide, by decide, rfl, by decide, by decide, by decide, by decide,
    by decide, by decide⟩

/-! ## Selection events: the list widget -/

theorem takeLoop_append (data : List String) :
    ∀ (n : Nat) (suffix pre : List QListWidgetItem), suffix.length = n →
      takeLoop data pre.length (pre ++ suffix) = pre ++ removeSkip data suffix := by
  intro n
  induction n using Nat.strong_induction_on with
  | _ n ih =>
    intro suffix pre hn
    cases suffix with
    | nil =>
      rw [takeLoop]
      simp [removeSkip]
    | cons x xs =>
      have hlt : pre.length < (pre ++ x :: xs).length := by simp
      have hget : (pre ++ x :: xs).get ⟨pre.length, hlt⟩ = x := by
        simp [List.getElem_append_right]
      have herase : (pre ++ x :: xs).eraseIdx pre.length = pre ++ xs := by
        rw [List.eraseIdx_append_of_length_le (Nat.le_refl _)]
        simp
      rw [takeLoop, dif_pos hlt, hget, herase]
      by_cases hx : x.data = data
      · simp only [hx, if_true]
        cases xs with
        | nil =>
          rw [takeLoop]
          simp [removeSkip, hx]
        | cons y ys =>
          have h := ih ys.length (by simp at hn; omega) ys (pre ++ [y]) rfl
          simp only [List.length_append, List.length_singleton, List.append_assoc,
            List.singleton_append] at h
          simp only [removeSkip, hx, if_true]
          exact h
      · simp only [hx, if_false]
        have h := ih xs.length (by simp at hn; omega) xs (pre ++ [x]) rfl
        simp only [List.length_append, List.length_singleton, List.append_assoc,
          List.singleton_append] at h
        rw [h]
        cases xs with
        | nil => simp [removeSkip, hx]
        | cons y ys => simp only [removeSkip, hx, if_false]

/-- The loop over the rows of the list widget, started at row 0, leaves `removeSkip`. -/
theorem takeLoop_zero (data : List String) (listWidget : List QListWidgetItem) :
    takeLoop data 0 listWidget = removeSkip data listWidget := by
  simpa using takeLoop_append data listWidget.length listWidget [] rfl

theorem removeSkip_cons_of_ne (data : List String) (x : QListWidgetItem)
    (xs : List QListWidgetItem) (hx : x.data ≠ data) :
    removeSkip data (x :: xs) = x :: removeSkip data xs := by
  cases xs with
  | nil => simp [removeSkip, hx]
  | cons y ys => simp only [removeSkip, hx, if_false]

theorem removeSkip_of_no_match (data : List String) :
    ∀ l : List QListWidgetItem, (∀ x ∈ l, x.data ≠ data) → removeSkip data l = l := by
  intro l
  induction l with
  | nil => intro _; rfl
  | cons x xs ih =>
    intro h
    have hx : x.data ≠ data := h x (List.mem_cons_self _ _)
    rw [removeSkip_cons_of_ne data x xs hx, ih (fun y hy => h y (List.mem_cons_of_mem _ hy))]

/-- Rows whose data differ from the pick all stay, in their order. -/
theorem removeSkip_keeps_other_rows (data : List String) :
    ∀ (n : Nat) (l : List QListWidgetItem), l.length = n →
      (removeSkip data l).filter (fun x => decide (x.data ≠ data)) =
        l.filter (fun x => decide (x.data ≠ data)) := by
  intro n
  induction n using Nat.strong_induction_on with
  | _ n ih =>
    intro l hn
    cases l with
    | nil => rfl
    | cons x xs =>
      by_cases hx : x.data = data
      · cases xs with
        | nil => simp [removeSkip, hx]
        | cons y ys =>
          have h := ih ys.length (by simp at hn; omega) ys rfl
          simp only [removeSkip, hx, if_true, List.filter_cons, h]
          simp
      · have h := ih xs.length (by simp at hn; omega) xs rfl
        rw [removeSkip_cons_of_ne data x xs hx, List.filter_cons, List.filter_cons, h]

/-- C10 at a failing input: the list widget holds two adjacent rows for (Box, Edge1), the
remove gate accepts the pick of that edge, and after `onSelectionChanged` one row with the
data of the pick is still in the widget. -/
theorem remove_pick_leaves_second_equal_row :
    demoPanelRemoving.selectionMode = SelectionMode.Remove ∧
    demoPanelRemoving.listWidget =
      [⟨"Box.Edge1", ["Doc", "Box", "Edge1"]⟩, ⟨"Box.Edge1", ["Doc", "Box", "Edge1"]⟩] ∧
    EdgeSelection.allow ⟨false, demoPanelRemoving.editedObject⟩ demoApp "Doc" 1
      (some "Edge1") = true ∧
    (demoPanelRemoving.onSelectionChanged demoApp demoKernel demoPick).map
        (fun s' => s'.listWidget) =
      some [⟨"Box.Edge1", [demoPick.pDocName, demoPick.pObjectName, demoPick.pSubName]⟩] := by
  refine ⟨by decide, by decide, by decide, ?_⟩
  have h : takeLoop [demoPick.pDocName, demoPick.pObjectName, demoPick.pSubName] 0
      demoPanelRemoving.listWidget = [⟨"Box.Edge1", ["Doc", "Box", "Edge1"]⟩] := by
    rw [takeLoop_zero]
    decide
  unfold SurfaceFilling.onSelectionChanged
  simp only [h]
  decide

/-- What holds of the list widget for every remove pick: the rows whose data differ from the
pick all stay, in their order. -/
theorem remove_pick_keeps_other_rows (app : Application) (k : Kernel) (s : SurfaceFilling)
    (msg : SelectionChanges)
    (hmode : s.selectionMode = SelectionMode.Remove)
    (htype : msg.msgType = MsgType.AddSelection) :
    ∃ s', s.onSelectionChanged app k msg = some s' ∧
      s'.listWidget.filter
          (fun x => decide (x.data ≠ [msg.pDocName, msg.pObjectName, msg.pSubName])) =
        s.listWidget.filter
          (fun x => decide (x.data ≠ [msg.pDocName, msg.pObjectName, msg.pSubName])) := by
  unfold SurfaceFilling.onSelectionChanged
  simp only [hmode, htype, if_true, if_false, reduceCtorEq, takeLoop_zero]
  cases eraseFirstPair (app.getObject msg.pDocName msg.pObjectName) msg.pSubName
      s.editedObject.BoundaryList.getValues s.editedObject.BoundaryList.getSubValues with
  | none => exact ⟨_, rfl, removeSkip_keeps_other_rows _ _ _ rfl⟩
  | some r => exact ⟨_, rfl, removeSkip_keeps_other_rows _ _ _ rfl⟩

/-! ## The list widget stays in step with the boundary list -/

theorem mem_zipWith_entryOf (app : Application) (x : QListWidgetItem) :
    ∀ (vals : List ObjPtr) (subs : List String),
      x ∈ List.zipWith (entryOf app) vals subs →
      ∃ o s, (o, s) ∈ vals.zip subs ∧ x = entryOf app o s := by
  intro vals
  induction vals with
  | nil => intro subs h; simp at h
  | cons o os ih =>
    intro subs h
    cases subs with
    | nil => simp at h
    | cons s ss =>
      simp only [List.zipWith_cons_cons, List.mem_cons] at h
      rcases h with h | h
      · exact ⟨o, s, by simp, h⟩
      · obtain ⟨o', s', hm, hx⟩ := ih ss h
        exact ⟨o', s', by simp [hm], hx⟩

theorem removeSkip_cons_of_only_match (data : List String) (x : QListWidgetItem)
    (rest : List QListWidgetItem) (hx : x.data = data) (hrest : ∀ y ∈ rest, y.data ≠ data) :
    removeSkip data (x :: rest) = rest := by
  cases rest with
  | nil => simp [removeSkip, hx]
  | cons y ys =>
    simp only [removeSkip, hx, if_true]
    rw [removeSkip_of_no_match data ys (fun z hz => hrest z (List.mem_cons_of_mem _ hz))]

/-- The two loops of the remove branch agree when no pair occurs twice: they take out the
same position. -/
theorem remove_loops_agree (app : Application) (data : List String) (obj : ObjPtr)
    (sub : String) :
    ∀ (vals : List ObjPtr) (subs : List String),
      vals.length = subs.length → (vals.zip subs).Nodup →
      (∀ o ∈ vals, ∀ s, (entryOf app o s).data = data ↔ (o = obj ∧ s = sub)) →
      (obj, sub) ∈ vals.zip subs →
      ∃ v' s', eraseFirstPair (some obj) sub vals subs = some (v', s') ∧
        removeSkip data (List.zipWith (entryOf app) vals subs) =
          List.zipWith (entryOf app) v' s' ∧
        v'.length = s'.length ∧ (v'.zip s').Sublist (vals.zip subs) := by
  intro vals
  induction vals with
  | nil => intro subs _ _ _ hmem; simp at hmem
  | cons o os ih =>
    intro subs hlen hnd hmatch hmem
    cases subs with
    | nil => simp at hmem
    | cons s ss =>
      simp only [List.zip_cons_cons, List.nodup_cons] at hnd
      simp only [List.length_cons, Nat.add_right_cancel_iff] at hlen
      by_cases hhead : o = obj ∧ s = sub
      · obtain ⟨rfl, rfl⟩ := hhead
        refine ⟨os, ss, by simp [eraseFirstPair], ?_, hlen, ?_⟩
        · rw [List.zipWith_cons_cons]
          apply removeSkip_cons_of_only_match
          · exact (hmatch o (List.mem_cons_self _ _) s).2 ⟨rfl, rfl⟩
          · intro y hy hyd
            obtain ⟨o', s', hm, rfl⟩ := mem_zipWith_entryOf app y os ss hy
            have ho' : o' ∈ o :: os := List.mem_cons_of_mem _ (List.of_mem_zip hm).1
            obtain ⟨rfl, rfl⟩ := (hmatch o' ho' s').1 hyd
            exact hnd.1 hm
        · simp
      · have hmem' : (obj, sub) ∈ os.zip ss := by
          simp only [List.zip_cons_cons, List.mem_cons, Prod.mk.injEq] at hmem
          rcases hmem with ⟨h1, h2⟩ | h
          · exact absurd ⟨h1.symm, h2.symm⟩ hhead
          · exact h
        obtain ⟨v', s', he, hr, hl, hs⟩ := ih ss hlen hnd.2
          (fun o' ho' => hmatch o' (List.mem_cons_of_mem _ ho')) hmem'
        have hhead' : ¬ (some o = some obj ∧ s = sub) := by
          simpa using hhead
        refine ⟨o :: v', s :: s', ?_, ?_, by simp [hl], ?_⟩
        · simp only [eraseFirstPair, hhead', if_false, he]
        · rw [List.zipWith_cons_cons, removeSkip_cons_of_ne, hr, List.zipWith_cons_cons]
          intro hd
          exact hhead ((hmatch o (List.mem_cons_self _ _) s).1 hd)
        · simpa using hs

/-- What holds of gated picks when every row carries the document name of its own object,
as the rows made by the append branch do: from a state that is in step in that sense, an
`AddSelection` event whose pick the gate of the active mode accepts leads to a state that is
in step again, so the count that `accept()` tests equals the number of pairs.  The host is
taken to name objects consistently: the message names the picked object, and the names of
every boundary object lead back to it. -/
theorem gated_pick_keeps_widget_in_step (app : Application) (k : Kernel) (s : SurfaceFilling)
    (msg : SelectionChanges) (picked : ObjPtr)
    (hstep : InStep app s)
    (hreg : ∀ o ∈ s.editedObject.BoundaryList.getValues,
      app.getObject (app.deref o).docName (app.deref o).nameInDocument = some o)
    (hmode : s.selectionMode ≠ SelectionMode.None)
    (htype : msg.msgType = MsgType.AddSelection)
    (hpick : app.getObject msg.pDocName msg.pObjectName = some picked)
    (hmsg : msg.pDocName = (app.deref picked).docName ∧
      msg.pObjectName = (app.deref picked).nameInDocument)
    (hgate : EdgeSelection.allow ⟨decide (s.selectionMode = SelectionMode.Append),
      s.editedObject⟩ app msg.pDocName picked (some msg.pSubName) = true) :
    ∃ s', s.onSelectionChanged app k msg = some s' ∧ InStep app s' ∧
      (∀ o ∈ s'.editedObject.BoundaryList.getValues,
        app.getObject (app.deref o).docName (app.deref o).nameInDocument = some o) ∧
      s'.listWidget.length = s'.editedObject.BoundaryList.getValues.length ∧
      s'.listWidget.length = s'.editedObject.BoundaryList.getSubValues.length := by
  obtain ⟨hlen, hlw, hnd⟩ := hstep
  obtain ⟨hself, hpart, hnil, hedge⟩ := basic_checks_of_allow _ app _ picked _ hgate
  have hx := allow_of_basic_checks (decide (s.selectionMode = SelectionMode.Append))
    s.editedObject app msg.pDocName picked msg.pSubName hself hpart hnil hedge
  rw [hgate] at hx
  have hpicked : app.getObject (app.deref picked).docName (app.deref picked).nameInDocument =
      some picked := by rw [← hmsg.1, ← hmsg.2]; exact hpick
  have hcount : ∀ s' : SurfaceFilling, InStep app s' →
      s'.listWidget.length = s'.editedObject.BoundaryList.getValues.length ∧
      s'.listWidget.length = s'.editedObject.BoundaryList.getSubValues.length := by
    intro s' h
    obtain ⟨h1, h2, _⟩ := h
    rw [h2, List.length_zipWith, ← h1, Nat.min_self]
    exact ⟨rfl, rfl⟩
  suffices main : ∃ s', s.onSelectionChanged app k msg = some s' ∧ InStep app s' ∧
      (∀ o ∈ s'.editedObject.BoundaryList.getValues,
        app.getObject (app.deref o).docName (app.deref o).nameInDocument = some o) by
    obtain ⟨s', h1, h2, h3⟩ := main
    exact ⟨s', h1, h2, h3, hcount s' h2⟩
  by_cases happ : s.selectionMode = SelectionMode.Append
  · -- append mode: the pair is new
    have hnew : (picked, msg.pSubName) ∉
        s.editedObject.BoundaryList.getValues.zip s.editedObject.BoundaryList.getSubValues := by
      intro hm
      simp [happ, hm] at hx
    unfold SurfaceFilling.onSelectionChanged
    simp only [happ, htype, hpick, if_true, if_false, reduceCtorEq]
    refine ⟨_, rfl, ⟨?_, ?_, ?_⟩, ?_⟩
    · simp only [SurfaceFilling.recomputeFeature, SurfaceFilling.setBoundaryList,
        PropertyLinkSubList.setValues, PropertyLinkSubList.getValues,
        PropertyLinkSubList.getSubValues, List.length_append, List.length_singleton] at hlen ⊢
      omega
    · simp only [SurfaceFilling.recomputeFeature, SurfaceFilling.setBoundaryList,
        PropertyLinkSubList.setValues, PropertyLinkSubList.getValues,
        PropertyLinkSubList.getSubValues, addListItem] at hlen hlw ⊢
      rw [List.zipWith_append _ _ _ _ _ hlen, ← hlw]
      simp [entryOf, hmsg.1, hmsg.2]
    · simp only [SurfaceFilling.recomputeFeature, SurfaceFilling.setBoundaryList,
        PropertyLinkSubList.setValues, PropertyLinkSubList.getValues,
        PropertyLinkSubList.getSubValues] at hlen hnd hnew ⊢
      rw [List.zip_append hlen, List.nodup_append]
      refine ⟨hnd, by simp, ?_⟩
      intro a ha hb
      simp only [List.zip_cons_cons, List.zip_nil_right, List.mem_singleton] at hb
      exact hnew (hb ▸ ha)
    · intro o ho
      simp only [SurfaceFilling.recomputeFeature, SurfaceFilling.setBoundaryList,
        PropertyLinkSubList.setValues, PropertyLinkSubList.getValues, List.mem_append,
        List.mem_singleton] at ho
      rcases ho with ho | rfl
      · exact hreg o ho
      · exact hpicked
  · -- remove mode: the pair is in the list, exactly once
    have hmem : (picked, msg.pSubName) ∈
        s.editedObject.BoundaryList.getValues.zip s.editedObject.BoundaryList.getSubValues := by
      by_contra hm
      simp [happ, hm] at hx
    have hmatch : ∀ o ∈ s.editedObject.BoundaryList.getValues, ∀ sub,
        (entryOf app o sub).data = [msg.pDocName, msg.pObjectName, msg.pSubName] ↔
          (o = picked ∧ sub = msg.pSubName) := by
      intro o ho sub
      constructor
      · intro h
        simp only [entryOf, List.cons.injEq, and_true] at h
        obtain ⟨h1, h2, h3⟩ := h
        have := hreg o ho
        rw [h1, h2, hpick] at this
        exact ⟨(Option.some.inj this).symm, h3⟩
      · rintro ⟨rfl, rfl⟩
        simp [entryOf, hmsg.1, hmsg.2]
    obtain ⟨v', s', he, hr, hl, hs⟩ := remove_loops_agree app
      [msg.pDocName, msg.pObjectName, msg.pSubName] picked msg.pSubName _ _ hlen hnd hmatch hmem
    unfold SurfaceFilling.onSelectionChanged
    simp only [hmode, happ, htype, hpick, if_true, if_false, reduceCtorEq]
    simp only [he]
    refine ⟨_, rfl, ⟨hl, ?_, hs.nodup hnd⟩, ?_⟩
    · simp only [SurfaceFilling.recomputeFeature, SurfaceFilling.setBoundaryList,
        PropertyLinkSubList.setValues, PropertyLinkSubList.getValues,
        PropertyLinkSubList.getSubValues, takeLoop_zero]
      rw [hlw]
      exact hr
    · intro o ho
      simp only [SurfaceFilling.recomputeFeature, SurfaceFilling.setBoundaryList,
        PropertyLinkSubList.setValues, PropertyLinkSubList.getValues] at ho
      have hsub : v' ⊆ s.editedObject.BoundaryList.getValues := by
        intro a ha
        obtain ⟨i, hi, rfl⟩ := List.mem_iff_getElem.1 ha
        have hi' : i < (v'.zip s').length := by
          rw [List.length_zip, ← hl, Nat.min_self]; exact hi
        have hz : (v'.zip s')[i] ∈ v'.zip s' := List.getElem_mem hi'
        have := hs.subset hz
        simp only [List.getElem_zip] at this
        exact (List.of_mem_zip this).1
      exact hreg o (hsub ho)

/-- Witness of C5: picking `Edge2` of the box in append mode turns the boundary
(Box, Edge1) into (Box, Edge1), (Box, Edge2). -/
theorem append_pick_adds_pair_at_end_witness :
    ∃ s', demoPanelAppending.onSelectionChanged demoApp demoKernel demoPickNew = some s' ∧
      s'.editedObject.BoundaryList.getValues = [1, 1] ∧
      s'.editedObject.BoundaryList.getSubValues = ["Edge1", "Edge2"] := by
  obtain ⟨s', h1, h2, h3, _⟩ := append_pick_adds_pair_at_end demoApp demoKernel
    demoPanelAppending demoPickNew 1 (by decide) (by decide) (by decide) (by decide)
  exact ⟨s', h1, h2, h3⟩

/-- Witness of C6: picking `Edge1` of the box in remove mode empties the boundary
(Box, Edge1). -/
theorem remove_pick_erases_first_matching_pair_witness :
    ∃ s', demoPanelRemovingOnce.onSelectionChanged demoApp demoKernel demoPick = some s' ∧
      s'.editedObject.BoundaryList.getValues = [] ∧
      s'.editedObject.BoundaryList.getSubValues = [] := by
  obtain ⟨s', h1, h2, _⟩ := remove_pick_erases_first_matching_pair demoApp demoKernel
    demoPanelRemovingOnce demoPick 1 (by decide) (by decide) (by decide) (by decide)
  obtain ⟨h3, h4⟩ := h2 0 (by decide) (by decide) (by intro j hj; omega)
  exact ⟨s', h1, h3, h4⟩

/-- In the example scene the panel is in step, the append gate accepts `Edge2` of the box,
and the panel is in step again after the event. -/
theorem gated_pick_keeps_widget_in_step_witness :
    InStep demoApp demoPanelAppending ∧
    EdgeSelection.allow ⟨true, demoPanelAppending.editedObject⟩ demoApp "Doc" 1
      (some "Edge2") = true ∧
    ∃ s', demoPanelAppending.onSelectionChanged demoApp demoKernel demoPickNew = some s' ∧
      InStep demoApp s' ∧
      s'.listWidget.length = s'.editedObject.BoundaryList.getValues.length := by
  have hstep : InStep demoApp demoPanelAppending := by
    unfold InStep
    decide
  obtain ⟨s', h1, h2, _, h3, _⟩ := gated_pick_keeps_widget_in_step demoApp demoKernel
    demoPanelAppending demoPickNew 1 hstep (by decide) (by decide) (by decide) (by decide)
    (by decide) (by decide)
  exact ⟨hstep, by decide, s', h1, h2, h3⟩

/-- C9 at a failing input.  The surface of document `Doc` has the two pairs (Box, Edge1) and
(Box, Edge2), the box being in document `Other`.  The panel that `setEditedObject` builds
has one row for each pair, in order, and no pair occurs twice; each row carries the document
name of the edited object, `Doc`.  The remove gate accepts the pick of `Edge1` of the box,
and the message names the box.  After `onSelectionChanged` the pair is gone from
`BoundaryList` and both rows are still in the list widget, since the rows are compared with
the document name of the message, `Other`: the count that `accept()` tests is 2 for one
pair. -/
theorem gated_remove_pick_keeps_row_of_other_document :
    demoPanelOtherDoc.on_buttonEdgeRemove_clicked.selectionMode = SelectionMode.Remove ∧
    demoPanelOtherDoc.on_buttonEdgeRemove_clicked.listWidget =
      [⟨"Box.Edge1", ["Doc", "Box", "Edge1"]⟩, ⟨"Box.Edge2", ["Doc", "Box", "Edge2"]⟩] ∧
    demoPanelOtherDoc.on_buttonEdgeRemove_clicked.editedObject.BoundaryList =
      ⟨[3, 3], ["Edge1", "Edge2"]⟩ ∧
    ([3, 3].zip ["Edge1", "Edge2"]).Nodup ∧
    EdgeSelection.allow ⟨false, demoPanelOtherDoc.on_buttonEdgeRemove_clicked.editedObject⟩
      demoAppTwoDocs demoPickOtherDoc.pDocName 3 (some demoPickOtherDoc.pSubName) = true ∧
    demoAppTwoDocs.getObject demoPickOtherDoc.pDocName demoPickOtherDoc.pObjectName = some 3 ∧
    (demoAppTwoDocs.deref 3).docName = demoPickOtherDoc.pDocName ∧
    (demoAppTwoDocs.deref 3).nameInDocument = demoPickOtherDoc.pObjectName ∧
    (demoPanelOtherDoc.on_buttonEdgeRemove_clicked.onSelectionChanged demoAppTwoDocs demoKernel
        demoPickOtherDoc).map
        (fun s' => (s'.listWidget, s'.editedObject.BoundaryList)) =
      some ([⟨"Box.Edge1", ["Doc", "Box", "Edge1"]⟩, ⟨"Box.Edge2", ["Doc", "Box", "Edge2"]⟩],
        ⟨[3], ["Edge2"]⟩) := by
  refine ⟨by decide, by decide, by decide, by decide, by decide, by decide, by decide,
    by decide, ?_⟩
  have h : takeLoop [demoPickOtherDoc.pDocName, demoPickOtherDoc.pObjectName,
      demoPickOtherDoc.pSubName] 0 demoPanelOtherDoc.on_buttonEdgeRemove_clicked.listWidget =
      [⟨"Box.Edge1", ["Doc", "Box", "Edge1"]⟩, ⟨"Box.Edge2", ["Doc", "Box", "Edge2"]⟩] := by
    rw [takeLoop_zero]
    decide
  unfold SurfaceFilling.onSelectionChanged
  simp only [h]
  decide

end SurfaceGui
